import Mathlib

/-!
Shallow embedding of the Upheaval-Draft repository (src/main.rs, src/ui.rs):
a library of "marks", a constrained random sampling engine (exec_draw), a
line-addressed draft editor (get_selection, rotation, tag operations,
cursor/scroll navigation) and the results history.  Rust BTreeSet values are
modelled as sorted duplicate-free lists; where a claim needs the set
invariant, it appears as a Nodup hypothesis.  Code that can panic or loop
forever (unwrap, expect, out-of-range indexing, the find_and_rotate scan on
a missing value) is modelled with Option, where none stands for the panic or
divergence.  The random source (rand ThreadRng consumed by Vec choose) is
modelled as a function from the draw index to a natural number; choose on a
non-empty pool picks the element at that number modulo the pool size.
-/

namespace Upheaval

/-- Quality levels, in declaration order of the Rust enum Power in main.rs. -/
inductive Power where
  | BadKarma
  | Poor
  | Moderate
  | Good
  | Great
  | Supreme
  | Unique
deriving DecidableEq, Repr

/-- Mark record from main.rs; tags is a BTreeSet modelled as a list. -/
structure Mark where
  name : String
  power : Power
  category : String
  tags : List String
  description : String
deriving DecidableEq, Repr

/-- Library from main.rs: the mark list with availability flags, plus the
derived category and tag sets (BTreeSet modelled as lists). -/
structure Library where
  list : List (Mark × Bool)
  categories : List String
  tags : List String
deriving DecidableEq, Repr

/-- Draw specification from main.rs. -/
structure Draw where
  power : Option Power
  category : Option String
  tags : List String
deriving DecidableEq, Repr

/-- Draw default from the Rust derive: all fields absent or empty. -/
def defaultDraw : Draw := { power := none, category := none, tags := [] }

/-- Quality filter of Library exec_draw (main.rs lines 140-144): the value is
true exactly when the Rust match skips the mark.  An exact match passes, and
a BadKarma constraint additionally passes Poor and Moderate marks. -/
def powerRejects (p mp : Power) : Bool :=
  if p = mp then false
  else
    match p, mp with
    | .BadKarma, .Poor => false
    | .BadKarma, .Moderate => false
    | _, _ => true

/-- One mark qualifies for a draw given the already-chosen marks: the
conjunction of the continue-guards of the labelled loop in exec_draw
(availability, quality filter, category filter, tag filter, cross-draw
dedup on names). -/
def qualifies (chosen : List Mark) (d : Draw) (m : Mark) (free : Bool) : Bool :=
  free &&
  !(match d.power with
    | some p => powerRejects p m.power
    | none => false) &&
  !(match d.category with
    | some c => decide (m.category ≠ c)
    | none => false) &&
  d.tags.all (fun t => decide (t ∈ m.tags)) &&
  !(chosen.any (fun m2 => decide (m2.name = m.name)))

/-- Candidate pool for one draw: the qualifying entries of the library list,
in library order (the pool Vec built by the labelled loop in exec_draw). -/
def buildPool (lib : Library) (chosen : List Mark) (d : Draw) : List Mark :=
  (lib.list.filter (fun mf => qualifies chosen d mf.1 mf.2)).map Prod.fst

/-- Sentinel placeholder produced when the pool is empty (exec_draw): name
STUPID, power Poor, remaining fields from the Mark default. -/
def sentinelMark : Mark :=
  { name := "STUPID", power := .Poor, category := "", tags := [], description := "" }

/-- Model of Vec choose on the pool: pick the element indexed by the random
value modulo the pool length; none on an empty pool. -/
def chooseFrom (pool : List Mark) (r : Nat) : Option Mark :=
  pool[r % pool.length]?

/-- Loop body of exec_draw: walk the draw list, growing the list of chosen
marks; the random value for a draw is indexed by how many draws were already
resolved. -/
def exec_go (lib : Library) (rng : Nat → Nat) : List Draw → List Mark → List Mark
  | [], chosen => chosen
  | d :: ds, chosen =>
    exec_go lib rng ds
      (chosen ++ [(chooseFrom (buildPool lib chosen d) (rng chosen.length)).getD sentinelMark])

/-- Library exec_draw (main.rs lines 130-172), value part. -/
def exec_draw (lib : Library) (draws : List Draw) (rng : Nat → Nat) : List Mark :=
  exec_go lib rng draws []

/-- State-passing form of exec_draw: the method takes the library by mutable
reference, so the translation threads the library through the loop and
returns it together with the resolved marks.  The body of the Rust loop only
reads the library, so each iteration passes it on unchanged. -/
def exec_go_st (lib : Library) (rng : Nat → Nat) : List Draw → List Mark → Library × List Mark
  | [], chosen => (lib, chosen)
  | d :: ds, chosen =>
    exec_go_st lib rng ds
      (chosen ++ [(chooseFrom (buildPool lib chosen d) (rng chosen.length)).getD sentinelMark])

/-- State-passing exec_draw. -/
def exec_draw_st (lib : Library) (draws : List Draw) (rng : Nat → Nat) : Library × List Mark :=
  exec_go_st lib rng draws []

/-- Marks chosen before draw i starts: the resolution of the first i draws. -/
def chosenBefore (lib : Library) (draws : List Draw) (rng : Nat → Nat) (i : Nat) : List Mark :=
  exec_draw lib (draws.take i) rng

/-- Candidate pool of draw i inside a run of exec_draw. -/
def poolAt (lib : Library) (draws : List Draw) (rng : Nat → Nat) (i : Nat) : List Mark :=
  buildPool lib (chosenBefore lib draws rng i) (draws[i]?.getD defaultDraw)

/-- Number of display lines occupied by one draw (ui.rs draw_lines): one
header line, one line per populated optional field, one line per tag. -/
def draw_lines (d : Draw) : Nat :=
  1 + (if d.power.isSome then 1 else 0) + (if d.category.isSome then 1 else 0) + d.tags.length

/-- Total line count of a draft (DraftEditor max_line). -/
def totalLines (draws : List Draw) : Nat :=
  (draws.map draw_lines).sum

/-- Rotation direction (ui.rs Dir). -/
inductive Dir where
  | left
  | right
deriving DecidableEq, Repr

/-- Kind of an addressed sub-element of a draw (ui.rs ElementKind). -/
inductive ElementKind where
  | mark
  | power
  | category
  | tag (n : Nat)
deriving DecidableEq, Repr

/-- Editor state (ui.rs DraftEditor): the draft, the current line and the
viewport scroll offset. -/
structure DraftEditor where
  draws : List Draw
  line : Nat
  scroll : Nat
deriving DecidableEq, Repr

/-- Model of the keys the DraftEditor input handler distinguishes. -/
inductive Key where
  | down
  | pageUp
  | pageDown
  | up
  | left
  | right
  | backspace
  | charA
  | charC
  | charP
  | charT
  | other
deriving DecidableEq, Repr

/-- DraftEditor get_selection (ui.rs lines 424-441): accumulate the line
counts of the draws in order until the target line falls inside one, and
return that draw's index together with the offset inside it.  The Rust
version panics on an empty draft and walks off the end of the draw vector
when the line is at or beyond the total line count; both are none here. -/
def get_selection : List Draw → Nat → Option (Nat × Nat)
  | [], _ => none
  | d :: ds, line =>
    if line < draw_lines d then some (0, line)
    else (get_selection ds (line - draw_lines d)).map (fun p => (p.1 + 1, p.2))

/-- Element kinds of one draw in offset order (body of get_element_kind):
the implicit mark header, then power and category when present, then one
entry per tag. -/
def elementList (d : Draw) : List ElementKind :=
  [ElementKind.mark]
    ++ (if d.power.isSome then [ElementKind.power] else [])
    ++ (if d.category.isSome then [ElementKind.category] else [])
    ++ (List.range d.tags.length).map ElementKind.tag

/-- DraftEditor get_element_kind: classify the currently addressed line. -/
def get_element_kind (ed : DraftEditor) : Option ElementKind :=
  (get_selection ed.draws ed.line).bind fun p =>
    (ed.draws[p.1]?).bind fun d => (elementList d)[p.2]?

/-- Rotate a list one step right (Vec rotate_right 1): the last element
moves to the front. -/
def rotR {T : Type} (v : List T) : List T :=
  v.drop (v.length - 1) ++ v.take (v.length - 1)

/-- Rotate a list one step left (Vec rotate_left 1): the head moves to the
back. -/
def rotL {T : Type} (v : List T) : List T :=
  v.drop 1 ++ v.take 1

/-- Scanning loop of find_and_rotate (ui.rs lines 468-470): rotate the
vector right until its first element is the sought value.  The Rust loop
panics on an empty vector and spins forever when the value does not occur;
the fuel bound length + 1 is enough for every terminating run, so none here
means exactly panic or divergence. -/
def findLoop {T : Type} [DecidableEq T] (x : T) : List T → Nat → Option (List T)
  | _, 0 => none
  | [], _ + 1 => none
  | y :: v, fuel + 1 =>
    if y = x then some (y :: v)
    else findLoop x (rotR (y :: v)) fuel

/-- find_and_rotate (ui.rs lines 467-476): align the candidate vector on the
current value, rotate one step in the requested direction, and return the
new front element (swap_remove 0). -/
def find_and_rotate {T : Type} [DecidableEq T] (x : T) (v : List T) (dir : Dir) : Option T :=
  (findLoop x v (v.length + 1)).bind fun w =>
    match dir with
    | .left => (rotL w).head?
    | .right => (rotR w).head?

/-- Removal of one element from a set modelled as a duplicate-free list
(BTreeSet remove): keep everything different from it, preserving order. -/
def setRemove {T : Type} [DecidableEq T] (l : List T) (a : T) : List T :=
  l.filter (fun x => decide (x ≠ a))

/-- Fixed candidate list of a quality rotation: the powers array of
rotate_current_element, in source order. -/
def powersList : List Power :=
  [.BadKarma, .Poor, .Moderate, .Good, .Great, .Supreme, .Unique]

/-- Candidate list of a tag rotation at index n: the library tag set with
every tag of the draw other than the rotated one removed. -/
def tagCandidates (lib : Library) (d : Draw) (n : Nat) : List String :=
  (d.tags.eraseIdx n).foldl setRemove lib.tags

/-- Rotation of one element of a draw (the kind-directed part of
rotate_current_element, ui.rs lines 478-511).  Quality rotates through the
seven-value list, category through the library category set, a tag through
the library tag set minus the draw's other tags.  The mark header matches no
branch and leaves the draw unchanged.  none models the panics (unwrap of an
absent field, out-of-range tag index) and the divergence of the scan. -/
def rotateDraw (lib : Library) (d : Draw) (k : ElementKind) (dir : Dir) : Option Draw :=
  match k with
  | .mark => some d
  | .power =>
    match d.power with
    | none => none
    | some p => (find_and_rotate p powersList dir).map fun p2 => { d with power := some p2 }
  | .category =>
    match d.category with
    | none => none
    | some c =>
      (find_and_rotate c lib.categories dir).map fun c2 => { d with category := some c2 }
  | .tag n =>
    match d.tags[n]? with
    | none => none
    | some t =>
      (find_and_rotate t (tagCandidates lib d n) dir).map fun t2 =>
        { d with tags := d.tags.set n t2 }

/-- DraftEditor rotate_current_element: classify the addressed element and
rotate it inside its draw. -/
def rotate_current_element (lib : Library) (ed : DraftEditor) (dir : Dir) : Option DraftEditor :=
  (get_selection ed.draws ed.line).bind fun p =>
    (ed.draws[p.1]?).bind fun d =>
      ((elementList d)[p.2]?).bind fun k =>
        (rotateDraw lib d k dir).map fun d2 => { ed with draws := ed.draws.set p.1 d2 }

/-- Tag-addition restricted to one draw (body of DraftEditor add_tag, ui.rs
lines 533-544): remove the draw's tags from the library tag set and, when
something remains, push its first element; otherwise leave the draw alone. -/
def addTagDraw (lib : Library) (d : Draw) : Draw :=
  let tagLib := d.tags.foldl setRemove lib.tags
  match tagLib.head? with
  | none => d
  | some t => { d with tags := d.tags ++ [t] }

/-- DraftEditor add_tag: apply the tag addition to the selected draw. -/
def add_tag (lib : Library) (ed : DraftEditor) : Option DraftEditor :=
  (get_selection ed.draws ed.line).bind fun p =>
    (ed.draws[p.1]?).map fun d => { ed with draws := ed.draws.set p.1 (addTagDraw lib d) }

/-- DraftEditor add_or_modify_power: set the selected draw's quality to the
fixed starting value Supreme. -/
def add_or_modify_power (ed : DraftEditor) : Option DraftEditor :=
  (get_selection ed.draws ed.line).bind fun p =>
    (ed.draws[p.1]?).map fun d =>
      { ed with draws := ed.draws.set p.1 { d with power := some .Supreme } }

/-- DraftEditor add_or_modify_category (ui.rs lines 443-445): set the
selected draw's category to the first element of the library category set;
the Rust unwrap panics when that set is empty, which is none here. -/
def add_or_modify_category (lib : Library) (ed : DraftEditor) : Option DraftEditor :=
  (get_selection ed.draws ed.line).bind fun p =>
    (ed.draws[p.1]?).bind fun d =>
      lib.categories.head?.map fun c =>
        { ed with draws := ed.draws.set p.1 { d with category := some c } }

/-- DraftEditor add_plain_mark: append a fully unconstrained draw. -/
def add_plain_mark (ed : DraftEditor) : DraftEditor :=
  { ed with draws := ed.draws ++ [defaultDraw] }

/-- DraftEditor delete_current_element: a mark header deletes its whole
draw, any other element clears just that field; afterwards the current line
is decremented, saturating at zero. -/
def delete_current_element (ed : DraftEditor) : Option DraftEditor :=
  (get_selection ed.draws ed.line).bind fun p =>
    (ed.draws[p.1]?).bind fun d =>
      ((elementList d)[p.2]?).map fun k =>
        let draws2 :=
          match k with
          | .mark => ed.draws.eraseIdx p.1
          | .power => ed.draws.set p.1 { d with power := none }
          | .category => ed.draws.set p.1 { d with category := none }
          | .tag n => ed.draws.set p.1 { d with tags := d.tags.eraseIdx n }
        { ed with draws := draws2, line := ed.line - 1 }

/-- DraftEditor max_line. -/
def max_line (ed : DraftEditor) : Nat :=
  totalLines ed.draws

/-- DraftEditor input (ui.rs lines 391-406): cursor movement clamps the line
to the interval from 0 to max_line - 1, scroll-up saturates at 0, scroll-down
clamps to max_line, and the structural operations fire only when the draft
has at least one draw (the guards on their match arms); unguarded keys fall
through to the final no-op arm. -/
def inputDE (lib : Library) (ed : DraftEditor) (k : Key) : Option DraftEditor :=
  match k with
  | .down => some { ed with line := min (max_line ed - 1) (ed.line + 1) }
  | .pageUp => some { ed with scroll := ed.scroll - 1 }
  | .pageDown => some { ed with scroll := min (ed.scroll + 1) (max_line ed) }
  | .up => some { ed with line := ed.line - 1 }
  | .left => if ed.draws.length > 0 then rotate_current_element lib ed .left else some ed
  | .right => if ed.draws.length > 0 then rotate_current_element lib ed .right else some ed
  | .backspace => if ed.draws.length > 0 then delete_current_element ed else some ed
  | .charA => some (add_plain_mark ed)
  | .charC => if ed.draws.length > 0 then add_or_modify_category lib ed else some ed
  | .charP => if ed.draws.length > 0 then add_or_modify_power ed else some ed
  | .charT => if ed.draws.length > 0 then add_tag lib ed else some ed
  | .other => some ed

/-- Results history (ui.rs Results): the append-only list of resolved
executions and the selected index of the list state. -/
structure ResultsS where
  results : List (List Mark × List Draw)
  selected : Option Nat
deriving DecidableEq, Repr

/-- Results next_selection (ui.rs lines 177-189): advance the selected
index, wrapping to 0 from the last entry (or from nothing selected).  When
an index is selected the Rust code computes results.len() - 1 unguarded;
on an empty history that usize subtraction underflows (a panic in a debug
build), which is none here. -/
def next_selection (r : ResultsS) : Option ResultsS :=
  match r.selected with
  | some i =>
    if r.results.length = 0 then none
    else some { r with selected := some (if i ≥ r.results.length - 1 then 0 else i + 1) }
  | none => some { r with selected := some 0 }

/-- Results prev_selection (ui.rs lines 191-203): retreat the selected
index, wrapping to the last entry from 0.  The results.len() - 1 in the
index-zero branch is unguarded in the Rust code; on an empty history that
usize subtraction underflows (a panic in a debug build), which is none
here. -/
def prev_selection (r : ResultsS) : Option ResultsS :=
  match r.selected with
  | some i =>
    if i = 0 then
      if r.results.length = 0 then none
      else some { r with selected := some (r.results.length - 1) }
    else some { r with selected := some (i - 1) }
  | none => some { r with selected := some 0 }

/-- Appending one execution outcome to the results history (the Enter branch
of UiState input, ui.rs lines 99-112): push the entry, then select the last
index of the grown list. -/
def appendResult (r : ResultsS) (entry : List Mark × List Draw) : ResultsS :=
  { results := r.results ++ [entry],
    selected := some ((r.results ++ [entry]).length - 1) }

/-- Iterated rotation of the addressed element of the editor, failure
propagating. -/
def rotateN (lib : Library) (dir : Dir) : Nat → DraftEditor → Option DraftEditor
  | 0, ed => some ed
  | k + 1, ed => (rotate_current_element lib ed dir).bind (rotateN lib dir k)

/-- Opposite rotation direction. -/
def flipDir : Dir → Dir
  | .left => .right
  | .right => .left

/-- One editing operation on the tag list of a draw: rotation of the tag at
an index, or tag addition. -/
inductive TagOp where
  | rot (n : Nat) (dir : Dir)
  | add
deriving DecidableEq, Repr

/-- Apply one tag operation to a draw. -/
def applyTagOp (lib : Library) (d : Draw) : TagOp → Option Draw
  | .rot n dir => rotateDraw lib d (.tag n) dir
  | .add => some (addTagDraw lib d)

/-- Apply a sequence of tag operations, failure propagating. -/
def applyTagOps (lib : Library) : List TagOp → Draw → Option Draw
  | [], d => some d
  | op :: ops, d => (applyTagOp lib d op).bind (applyTagOps lib ops)

/-- Size of the candidate set the addressed element rotates through. -/
def candCount (lib : Library) (ed : DraftEditor) : Nat :=
  match (get_selection ed.draws ed.line).bind fun p =>
      (ed.draws[p.1]?).bind fun d => ((elementList d)[p.2]?).map fun k => (d, k) with
  | some (_, .power) => powersList.length
  | some (_, .category) => lib.categories.length
  | some (d, .tag n) => (tagCandidates lib d n).length
  | _ => 0

/-- Sampling-relevant constraints on the addressed element for rotation: it
is a rotatable kind and its current value belongs to the candidate set it
rotates through (the edge-case assumption stated in the design). -/
def RotValOk (lib : Library) (d : Draw) : ElementKind → Prop
  | .mark => False
  | .power => d.power.isSome = true
  | .category => ∃ c, d.category = some c ∧ c ∈ lib.categories
  | .tag n => ∃ t, d.tags[n]? = some t ∧ t ∈ tagCandidates lib d n

/-- The editor addresses a rotatable element whose value is in its candidate
set. -/
def RotInv (lib : Library) (ed : DraftEditor) : Prop :=
  ∃ i off d k,
    get_selection ed.draws ed.line = some (i, off) ∧
    ed.draws[i]? = some d ∧
    (elementList d)[off]? = some k ∧
    RotValOk lib d k

/-! Concrete data used by the witnesses. -/

/-- Example mark. -/
def markAlpha : Mark :=
  { name := "Alpha", power := .Good, category := "catA", tags := ["t1"], description := "" }

/-- Example mark. -/
def markBeta : Mark :=
  { name := "Beta", power := .Poor, category := "catB", tags := ["t2"], description := "" }

/-- Example mark. -/
def markGamma : Mark :=
  { name := "Gamma", power := .BadKarma, category := "catA", tags := ["t1", "t2"], description := "" }

/-- Example library with three marks, two categories and three tags. -/
def lib1 : Library :=
  { list := [(markAlpha, true), (markBeta, true), (markGamma, true)],
    categories := ["catA", "catB"],
    tags := ["t1", "t2", "t3"] }

/-- Deterministic random stream that always answers zero. -/
def rng0 : Nat → Nat := fun _ => 0

/-- Draw with only a Good quality constraint. -/
def drawGood : Draw := { power := some .Good, category := none, tags := [] }

/-- Draw with a category constraint no mark satisfies. -/
def drawNope : Draw := { power := none, category := some "nope", tags := [] }

/-- Draw with a quality and one tag, occupying three lines. -/
def drawA : Draw := { power := some .Moderate, category := none, tags := ["t1"] }

/-- Draw with a category only, occupying two lines. -/
def drawB : Draw := { power := none, category := some "catA", tags := [] }

/-- Editor addressing the quality line of a one-draw draft. -/
def edPow : DraftEditor := { draws := [drawA], line := 1, scroll := 0 }

/-- Editor addressing the first tag line of a one-draw draft. -/
def edTag : DraftEditor := { draws := [drawA], line := 2, scroll := 0 }

/-- Editor on a one-line draft with the viewport at the top. -/
def edOne : DraftEditor := { draws := [defaultDraw], line := 0, scroll := 0 }

/-- Library whose category set is empty. -/
def libNoCat : Library :=
  { list := [({ name := "N", power := .Moderate, category := "", tags := [], description := "" }, true)],
    categories := [],
    tags := [] }

/-- Two-entry results history. -/
def res2 : ResultsS :=
  { results := [([markAlpha], [drawGood]), ([markBeta], [drawNope])], selected := some 1 }

/-! Lemmas about the sampling engine. -/

theorem exec_go_length (lib : Library) (rng : Nat → Nat) (ds : List Draw) :
    ∀ chosen : List Mark, (exec_go lib rng ds chosen).length = chosen.length + ds.length := by
  induction ds with
  | nil => intro chosen; simp [exec_go]
  | cons d ds ih =>
    intro chosen
    rw [exec_go, ih]
    simp
    omega

theorem exec_go_append (lib : Library) (rng : Nat → Nat) (ds1 : List Draw) :
    ∀ (ds2 : List Draw) (chosen : List Mark),
      exec_go lib rng (ds1 ++ ds2) chosen = exec_go lib rng ds2 (exec_go lib rng ds1 chosen) := by
  induction ds1 with
  | nil => intro ds2 chosen; rfl
  | cons d ds ih =>
    intro ds2 chosen
    rw [List.cons_append, exec_go, exec_go, ih]

theorem exec_go_extends (lib : Library) (rng : Nat → Nat) (ds : List Draw) :
    ∀ chosen : List Mark, ∃ t, exec_go lib rng ds chosen = chosen ++ t := by
  induction ds with
  | nil => intro chosen; exact ⟨[], by simp [exec_go]⟩
  | cons d ds ih =>
    intro chosen
    obtain ⟨t, ht⟩ :=
      ih (chosen ++ [(chooseFrom (buildPool lib chosen d) (rng chosen.length)).getD sentinelMark])
    exact ⟨[(chooseFrom (buildPool lib chosen d) (rng chosen.length)).getD sentinelMark] ++ t,
      by rw [exec_go, ht, List.append_assoc]⟩

theorem chosenBefore_length (lib : Library) (draws : List Draw) (rng : Nat → Nat) {i : Nat}
    (hi : i ≤ draws.length) : (chosenBefore lib draws rng i).length = i := by
  unfold chosenBefore exec_draw
  rw [exec_go_length]
  simp
  omega

theorem exec_draw_as_go (lib : Library) (draws : List Draw) (rng : Nat → Nat) (i : Nat) :
    exec_draw lib draws rng = exec_go lib rng (draws.drop i) (chosenBefore lib draws rng i) := by
  unfold chosenBefore exec_draw
  conv_lhs => rw [← List.take_append_drop i draws]
  rw [exec_go_append]

theorem chosenBefore_eq_take (lib : Library) (draws : List Draw) (rng : Nat → Nat) {i : Nat}
    (hi : i ≤ draws.length) :
    chosenBefore lib draws rng i = (exec_draw lib draws rng).take i := by
  obtain ⟨t, ht⟩ := exec_go_extends lib rng (draws.drop i) (chosenBefore lib draws rng i)
  have h2 := List.take_left (chosenBefore lib draws rng i) t
  rw [chosenBefore_length lib draws rng hi] at h2
  rw [exec_draw_as_go lib draws rng i, ht, h2]

theorem exec_draw_getElem (lib : Library) (draws : List Draw) (rng : Nat → Nat) {i : Nat}
    (hi : i < draws.length) :
    (exec_draw lib draws rng)[i]? =
      some ((chooseFrom (poolAt lib draws rng i) (rng i)).getD sentinelMark) := by
  have hlen : (chosenBefore lib draws rng i).length = i :=
    chosenBefore_length lib draws rng (Nat.le_of_lt hi)
  have hdrop : draws.drop i = draws[i] :: draws.drop (i + 1) := List.drop_eq_getElem_cons hi
  rw [exec_draw_as_go lib draws rng i, hdrop, exec_go]
  obtain ⟨t, ht⟩ := exec_go_extends lib rng (draws.drop (i + 1))
    (chosenBefore lib draws rng i ++
      [(chooseFrom (buildPool lib (chosenBefore lib draws rng i) draws[i])
          (rng (chosenBefore lib draws rng i).length)).getD sentinelMark])
  rw [ht, List.append_assoc, List.getElem?_append_right (by omega)]
  have hpool : poolAt lib draws rng i = buildPool lib (chosenBefore lib draws rng i) draws[i] := by
    unfold poolAt
    rw [List.getElem?_eq_getElem hi]
    rfl
  rw [hpool, hlen]
  simp

theorem powerRejects_eq_false (p q : Power) :
    powerRejects p q = false ↔
      p = q ∨ (p = .BadKarma ∧ (q = .Poor ∨ q = .Moderate)) := by
  cases p <;> cases q <;> decide

theorem mem_buildPool {lib : Library} {chosen : List Mark} {d : Draw} {m : Mark}
    (h : m ∈ buildPool lib chosen d) : ∃ b, (m, b) ∈ lib.list ∧ qualifies chosen d m b = true := by
  unfold buildPool at h
  obtain ⟨⟨m2, b⟩, hmem, rfl⟩ := List.mem_map.mp h
  obtain ⟨hmem2, hq⟩ := List.mem_filter.mp hmem
  exact ⟨b, hmem2, hq⟩

theorem chooseFrom_of_ne_nil {pool : List Mark} (h : pool ≠ []) (r : Nat) :
    ∃ m, chooseFrom pool r = some m ∧ m ∈ pool := by
  have hlen : 0 < pool.length := List.length_pos.mpr h
  have hlt : r % pool.length < pool.length := Nat.mod_lt _ hlen
  refine ⟨pool[r % pool.length], ?_, List.getElem_mem _⟩
  unfold chooseFrom
  exact List.getElem?_eq_getElem hlt

theorem qualifies_power {chosen : List Mark} {d : Draw} {m : Mark} {b : Bool} {q : Power}
    (hq : d.power = some q) (h : qualifies chosen d m b = true) :
    powerRejects q m.power = false := by
  unfold qualifies at h
  rw [hq] at h
  simp only [Bool.and_eq_true, Bool.not_eq_true'] at h
  exact h.1.1.1.2

theorem qualifies_dedup {chosen : List Mark} {d : Draw} {m : Mark} {b : Bool}
    (h : qualifies chosen d m b = true) : ∀ m2 ∈ chosen, m2.name ≠ m.name := by
  unfold qualifies at h
  simp only [Bool.and_eq_true, Bool.not_eq_true'] at h
  have hany := h.2
  intro m2 hm2
  rw [List.any_eq_false] at hany
  have := hany m2 hm2
  simpa using this

theorem exec_go_st_spec (lib : Library) (rng : Nat → Nat) (ds : List Draw) :
    ∀ chosen : List Mark, exec_go_st lib rng ds chosen = (lib, exec_go lib rng ds chosen) := by
  induction ds with
  | nil => intro chosen; rfl
  | cons d ds ih => intro chosen; rw [exec_go_st, ih, exec_go]

/-! Claim theorems about the sampling engine. -/

/-- C1: when the pool of draw i is non-empty, the resolved mark's quality
equals the draw's quality constraint q exactly whenever q is not BadKarma,
and lies in the set BadKarma, Poor, Moderate when q is BadKarma; no other
pair of constraint quality and mark quality passes the filter. -/
theorem exec_draw_quality (lib : Library) (draws : List Draw) (rng : Nat → Nat)
    {i : Nat} {d : Draw} {q : Power} (hd : draws[i]? = some d) (hq : d.power = some q)
    (hpool : poolAt lib draws rng i ≠ []) :
    ∃ m, (exec_draw lib draws rng)[i]? = some m ∧
      (q ≠ .BadKarma → m.power = q) ∧
      (q = .BadKarma → m.power = .BadKarma ∨ m.power = .Poor ∨ m.power = .Moderate) := by
  have hi : i < draws.length := (List.getElem?_eq_some.mp hd).1
  obtain ⟨m, hm, hmem⟩ := chooseFrom_of_ne_nil hpool (rng i)
  refine ⟨m, ?_, ?_, ?_⟩
  · rw [exec_draw_getElem lib draws rng hi, hm]
    rfl
  all_goals
    have hg : (draws[i]?.getD defaultDraw) = d := by rw [hd]; rfl
    unfold poolAt at hmem
    rw [hg] at hmem
    obtain ⟨b, _, hqual⟩ := mem_buildPool hmem
    have hrej := qualifies_power hq hqual
    rw [powerRejects_eq_false] at hrej
  · intro hne
    rcases hrej with h | ⟨hbk, _⟩
    · exact h.symm
    · exact absurd hbk hne
  · intro hbk
    rcases hrej with h | ⟨_, h⟩
    · left; rw [← h, hbk]
    · rcases h with h | h
      · right; left; exact h
      · right; right; exact h

/-- C2: resolution is total, producing exactly one mark per draw in order,
and a draw whose candidate pool is empty resolves to the sentinel
placeholder mark, whose fields are the fixed name, Poor quality, and empty
category, tag set and description. -/
theorem exec_draw_total (lib : Library) (draws : List Draw) (rng : Nat → Nat) :
    (exec_draw lib draws rng).length = draws.length ∧
    (∀ i, i < draws.length → poolAt lib draws rng i = [] →
      (exec_draw lib draws rng)[i]? = some sentinelMark) ∧
    sentinelMark =
      { name := "STUPID", power := .Poor, category := "", tags := [], description := "" } := by
  refine ⟨?_, ?_, rfl⟩
  · unfold exec_draw
    rw [exec_go_length]
    simp
  · intro i hi hpool
    rw [exec_draw_getElem lib draws rng hi, hpool]
    rfl

/-- C3: when every draw's candidate pool is non-empty at its turn, the
resolved marks carry pairwise-distinct names, because a name chosen for an
earlier draw is filtered out of every later draw's pool. -/
theorem exec_draw_distinct_names (lib : Library) (draws : List Draw) (rng : Nat → Nat)
    (hpool : ∀ i, i < draws.length → poolAt lib draws rng i ≠ []) :
    (exec_draw lib draws rng).Pairwise (fun a b => a.name ≠ b.name) := by
  have hlen : (exec_draw lib draws rng).length = draws.length := by
    unfold exec_draw
    rw [exec_go_length]
    simp
  rw [List.pairwise_iff_getElem]
  intro i j hi hj hij
  rw [hlen] at hi hj
  obtain ⟨mj, hmj, hmemj⟩ := chooseFrom_of_ne_nil (hpool j hj) (rng j)
  have hgetj : (exec_draw lib draws rng)[j]? = some mj := by
    rw [exec_draw_getElem lib draws rng hj, hmj]
    rfl
  unfold poolAt at hmemj
  obtain ⟨b, _, hqual⟩ := mem_buildPool hmemj
  have hdedup := qualifies_dedup hqual
  have hgeti : (exec_draw lib draws rng)[i]? =
      some ((exec_draw lib draws rng)[i]) := List.getElem?_eq_getElem (by omega)
  have hmemi : (exec_draw lib draws rng)[i] ∈ chosenBefore lib draws rng j := by
    rw [chosenBefore_eq_take lib draws rng (Nat.le_of_lt hj)]
    have : ((exec_draw lib draws rng).take j)[i]? =
        some ((exec_draw lib draws rng)[i]) := by
      rw [List.getElem?_take]
      simp [hij, hgeti]
    exact List.getElem?_mem this
  have := hdedup _ hmemi
  have hjval : (exec_draw lib draws rng)[j] = mj := by
    have := List.getElem?_eq_getElem (l := exec_draw lib draws rng) (by omega : j < _)
    rw [hgetj] at this
    exact (Option.some_inj.mp this).symm
  rw [hjval]
  exact this

/-- C8: the state-passing form of exec_draw returns the library unchanged
alongside the resolved marks: the resolution never mutates the mark list,
the availability flags, or the category and tag sets. -/
theorem exec_draw_preserves_library (lib : Library) (draws : List Draw) (rng : Nat → Nat) :
    (exec_draw_st lib draws rng).1 = lib ∧
    (exec_draw_st lib draws rng).2 = exec_draw lib draws rng := by
  unfold exec_draw_st exec_draw
  rw [exec_go_st_spec]
  exact ⟨rfl, rfl⟩

/-! Line addressing. -/

theorem totalLines_cons (d : Draw) (ds : List Draw) :
    totalLines (d :: ds) = draw_lines d + totalLines ds := by
  unfold totalLines
  rw [List.map_cons, List.sum_cons]

theorem get_selection_total (draws : List Draw) :
    ∀ l, l < totalLines draws →
      ∃ i off d, get_selection draws l = some (i, off) ∧ draws[i]? = some d ∧
        off < draw_lines d ∧ ((draws.take i).map draw_lines).sum + off = l := by
  induction draws with
  | nil =>
    intro l hl
    simp [totalLines] at hl
  | cons d ds ih =>
    intro l hl
    rw [totalLines_cons] at hl
    unfold get_selection
    by_cases hcase : l < draw_lines d
    · refine ⟨0, l, d, ?_, by simp, hcase, ?_⟩
      · simp [hcase]
      · simp
    · have hrest : l - draw_lines d < totalLines ds := by omega
      obtain ⟨i, off, d2, hgs, hget, hoff, hsum⟩ := ih (l - draw_lines d) hrest
      refine ⟨i + 1, off, d2, ?_, ?_, hoff, ?_⟩
      · simp [hcase, hgs]
      · simpa using hget
      · rw [List.take_succ_cons, List.map_cons, List.sum_cons]
        omega

theorem get_selection_mono (draws : List Draw) :
    ∀ l1 l2 i1 o1 i2 o2, l1 ≤ l2 →
      get_selection draws l1 = some (i1, o1) → get_selection draws l2 = some (i2, o2) →
      i1 ≤ i2 := by
  induction draws with
  | nil =>
    intro l1 l2 i1 o1 i2 o2 _ h1 _
    simp [get_selection] at h1
  | cons d ds ih =>
    intro l1 l2 i1 o1 i2 o2 hle h1 h2
    unfold get_selection at h1 h2
    by_cases hc1 : l1 < draw_lines d
    · simp [hc1] at h1
      omega
    · have hc2 : ¬l2 < draw_lines d := by omega
      rw [if_neg hc1] at h1
      rw [if_neg hc2] at h2
      cases hgs1 : get_selection ds (l1 - draw_lines d) with
      | none => rw [hgs1] at h1; exact absurd h1 (by simp)
      | some p1 =>
        cases hgs2 : get_selection ds (l2 - draw_lines d) with
        | none => rw [hgs2] at h2; exact absurd h2 (by simp)
        | some p2 =>
          rw [hgs1] at h1
          rw [hgs2] at h2
          simp only [Option.map_some', Option.some.injEq, Prod.mk.injEq] at h1 h2
          have := ih (l1 - draw_lines d) (l2 - draw_lines d) p1.1 p1.2 p2.1 p2.2 (by omega)
            (by rw [hgs1]) (by rw [hgs2])
          omega

/-- C4: every valid line number resolves, by accumulating the per-draw line
counts 1 + quality + category + tag count in order, to a draw index and an
in-draw offset whose recomposition recovers the line, and the draw index is
monotone in the line number. -/
theorem get_selection_spec (draws : List Draw) :
    (∀ l, l < totalLines draws →
      ∃ i off d, get_selection draws l = some (i, off) ∧ draws[i]? = some d ∧
        off < draw_lines d ∧ ((draws.take i).map draw_lines).sum + off = l) ∧
    (∀ l1 l2 i1 o1 i2 o2, l1 ≤ l2 →
      get_selection draws l1 = some (i1, o1) → get_selection draws l2 = some (i2, o2) →
      i1 ≤ i2) :=
  ⟨get_selection_total draws, get_selection_mono draws⟩

/-- C4 witness: in the two-draw draft with three and two lines, line 3 maps
to the second draw at offset 0 and recomposes. -/
theorem get_selection_spec_witness :
    ∃ i off d, get_selection [drawA, drawB] 3 = some (i, off) ∧ [drawA, drawB][i]? = some d ∧
      off < draw_lines d ∧ (([drawA, drawB].take i).map draw_lines).sum + off = 3 :=
  (get_selection_spec [drawA, drawB]).1 3 (by decide)

/-! Scroll and cursor clamping. -/

/-- C7 counterexample: on a one-line draft with the viewport at the top,
scroll-down produces offset 1, which exceeds total_lines - 1 = 0: scrolling
is clamped to max_line, not to the cursor's range. -/
theorem scroll_over_cursor_range :
    (inputDE lib1 edOne .pageDown).map DraftEditor.scroll = some 1 ∧
    max_line edOne - 1 = 0 ∧ ¬(1 ≤ max_line edOne - 1) := by
  decide

/-- C7 amended: scroll-down clamps the offset to max_line (the total line
count, one past the cursor's upper bound), scroll-up saturates at zero, and
neither scroll direction changes the current line or the draft. -/
theorem scroll_clamped (lib : Library) (ed : DraftEditor) :
    (∃ e, inputDE lib ed .pageDown = some e ∧
      e.scroll = min (ed.scroll + 1) (max_line ed) ∧ e.scroll ≤ max_line ed ∧
      e.line = ed.line ∧ e.draws = ed.draws) ∧
    (∃ e, inputDE lib ed .pageUp = some e ∧
      e.scroll = ed.scroll - 1 ∧ e.line = ed.line ∧ e.draws = ed.draws) := by
  constructor
  · exact ⟨_, rfl, rfl, Nat.min_le_right _ _, rfl, rfl⟩
  · exact ⟨_, rfl, rfl, rfl, rfl⟩

/-! Results history. -/

/-- C9: with a non-empty history, advancing from the last selected index
wraps the selection to 0, retreating from index 0 wraps to the last index
(in both cases leaving the entries untouched), and appending an execution
outcome selects the newly appended entry. -/
theorem results_navigation (r : ResultsS) (entry : List Mark × List Draw) :
    (∀ i, r.results ≠ [] → r.selected = some i → i = r.results.length - 1 →
      next_selection r = some { r with selected := some 0 }) ∧
    (r.results ≠ [] → r.selected = some 0 →
      prev_selection r = some { r with selected := some (r.results.length - 1) }) ∧
    (appendResult r entry).selected = some r.results.length ∧
    (appendResult r entry).results[r.results.length]? = some entry := by
  refine ⟨?_, ?_, ?_, ?_⟩
  · intro i hne hsel hlast
    have hlen : ¬r.results.length = 0 := by
      intro h0
      exact hne (List.length_eq_zero.mp h0)
    unfold next_selection
    rw [hsel]
    show (if r.results.length = 0 then none
      else some { r with selected := some (if i ≥ r.results.length - 1 then 0 else i + 1) }) =
      some { r with selected := some 0 }
    rw [if_neg hlen, if_pos (by omega : i ≥ r.results.length - 1)]
  · intro hne hsel
    have hlen : ¬r.results.length = 0 := by
      intro h0
      exact hne (List.length_eq_zero.mp h0)
    unfold prev_selection
    rw [hsel]
    show (if (0 : Nat) = 0 then
        if r.results.length = 0 then none
        else some { r with selected := some (r.results.length - 1) }
      else some { r with selected := some (0 - 1) }) =
      some { r with selected := some (r.results.length - 1) }
    rw [if_pos rfl, if_neg hlen]
  · unfold appendResult
    simp
  · unfold appendResult
    simp

/-- C9 witness: on the concrete two-entry history, next from index 1 wraps
to 0, previous from index 0 wraps to 1, and appending selects index 2. -/
theorem results_navigation_witness :
    next_selection res2 = some { res2 with selected := some 0 } ∧
    prev_selection { res2 with selected := some 0 } = some { res2 with selected := some 1 } ∧
    (appendResult res2 ([markGamma], [drawA])).selected = some 2 := by
  refine ⟨?_, ?_, ?_⟩
  · exact (results_navigation res2 ([], [])).1 1 (by decide) rfl rfl
  · exact (results_navigation { res2 with selected := some 0 } ([], [])).2.1 (by decide) rfl
  · exact (results_navigation res2 ([markGamma], [drawA])).2.2.1

/-- C10: when the library's category set is empty, the set-or-replace
category operation on a draft with at least one draw ends in the panic of
the unwrap on the set's first element, modelled here as none. -/
theorem add_or_modify_category_empty (lib : Library) (ed : DraftEditor)
    (hcat : lib.categories = []) (_hd : ed.draws ≠ []) :
    add_or_modify_category lib ed = none := by
  unfold add_or_modify_category
  rw [hcat]
  cases h : get_selection ed.draws ed.line with
  | none => rfl
  | some p =>
    cases h2 : ed.draws[p.1]? with
    | none => simp [h2]
    | some d => simp [h2]

/-- C10 witness: the concrete category-free library panics the operation on
a one-draw draft. -/
theorem add_or_modify_category_empty_witness :
    add_or_modify_category libNoCat { draws := [defaultDraw], line := 0, scroll := 0 } = none :=
  add_or_modify_category_empty libNoCat
    { draws := [defaultDraw], line := 0, scroll := 0 } rfl (by decide)

/-- C1 witness: drawing with a Good constraint from the concrete library
yields a mark whose quality is Good. -/
theorem exec_draw_quality_witness :
    ∃ m, (exec_draw lib1 [drawGood] rng0)[0]? = some m ∧
      (Power.Good ≠ .BadKarma → m.power = .Good) ∧
      (Power.Good = .BadKarma → m.power = .BadKarma ∨ m.power = .Poor ∨ m.power = .Moderate) :=
  @exec_draw_quality lib1 [drawGood] rng0 0 drawGood Power.Good (by decide) (by decide) (by decide)

/-- C2 witness: a category constraint no mark satisfies resolves to the
sentinel placeholder. -/
theorem exec_draw_total_witness :
    (exec_draw lib1 [drawNope] rng0)[0]? = some sentinelMark :=
  (exec_draw_total lib1 [drawNope] rng0).2.1 0 (by decide) (by decide)

/-- C3 witness: two unconstrained draws from the three-mark library have
non-empty pools and resolve to distinct names. -/
theorem exec_draw_distinct_names_witness :
    (exec_draw lib1 [defaultDraw, defaultDraw] rng0).Pairwise (fun a b => a.name ≠ b.name) :=
  exec_draw_distinct_names lib1 [defaultDraw, defaultDraw] rng0 (by decide)

/-! Rotation machinery. -/

theorem head?_mem {T : Type} {u : List T} {y : T} (h : u.head? = some y) : y ∈ u := by
  cases u with
  | nil => simp at h
  | cons a l =>
    rw [List.head?_cons, Option.some.injEq] at h
    rw [← h]
    exact List.mem_cons_self a l

theorem rotR_concat {T : Type} (l : List T) (a : T) : rotR (l ++ [a]) = a :: l := by
  unfold rotR
  have hlen : (l ++ [a]).length - 1 = l.length := by simp
  rw [hlen, List.drop_left, List.take_left]
  rfl

theorem mem_rotR {T : Type} {u : List T} {a : T} : a ∈ rotR u ↔ a ∈ u := by
  unfold rotR
  rw [List.mem_append, or_comm, ← List.mem_append, List.take_append_drop]

theorem mem_rotL {T : Type} {u : List T} {a : T} : a ∈ rotL u ↔ a ∈ u := by
  unfold rotL
  rw [List.mem_append, or_comm, ← List.mem_append, List.take_append_drop]

theorem rotL_eq_rotate {T : Type} (u : List T) : rotL u = u.rotate 1 := by
  cases u with
  | nil => rfl
  | cons a w =>
    rw [List.rotate_eq_drop_append_take (by simp : 1 ≤ (a :: w).length)]
    rfl

theorem rotR_eq_rotate {T : Type} (u : List T) : rotR u = u.rotate (u.length - 1) := by
  rw [List.rotate_eq_drop_append_take (Nat.sub_le _ _)]
  rfl

theorem head?_rotate {T : Type} {v : List T} (hne : 0 < v.length) (n : Nat) :
    (v.rotate n).head? = v[n % v.length]? := by
  have hmod : n % v.length < v.length := Nat.mod_lt _ hne
  rw [← List.rotate_mod, List.rotate_eq_drop_append_take (Nat.le_of_lt hmod),
    List.drop_eq_getElem_cons hmod, List.cons_append, List.head?_cons,
    List.getElem?_eq_getElem hmod]

theorem findLoop_mem {T : Type} [DecidableEq T] (x : T) :
    ∀ (f : Nat) (v w : List T), findLoop x v f = some w → ∀ a, a ∈ w ↔ a ∈ v := by
  intro f
  induction f with
  | zero =>
    intro v w h
    simp [findLoop] at h
  | succ f ih =>
    intro v w h a
    cases v with
    | nil => simp [findLoop] at h
    | cons y u =>
      rw [findLoop] at h
      by_cases hy : y = x
      · rw [if_pos hy, Option.some.injEq] at h
        rw [← h]
      · rw [if_neg hy] at h
        rw [ih (rotR (y :: u)) w h a, mem_rotR]

theorem findLoop_reaches {T : Type} [DecidableEq T] (x : T) (v : List T) :
    ∀ k f, k < v.length → x ∈ v.take (k + 1) → k + 1 ≤ f →
      ∃ j, j < v.length ∧ findLoop x (v.drop k ++ v.take k) f = some (v.drop j ++ v.take j) ∧
        v[j]? = some x := by
  intro k
  induction k with
  | zero =>
    intro f hk hx hf
    cases f with
    | zero => omega
    | succ f2 =>
      cases v with
      | nil => simp at hk
      | cons y w =>
        simp only [List.take_succ, List.take_zero, List.nil_append, List.getElem?_cons_zero,
          Option.toList_some, List.mem_singleton] at hx
        refine ⟨0, hk, ?_, ?_⟩
        · simp only [List.take_zero, List.drop_zero, List.append_nil]
          rw [findLoop, if_pos hx.symm]
        · rw [List.getElem?_cons_zero, hx]
  | succ k ih =>
    intro f hk hx hf
    have hklt : k < v.length := by omega
    have hstate : v.drop (k + 1) ++ v.take (k + 1) =
        v[k + 1] :: (v.drop (k + 2) ++ v.take (k + 1)) := by
      rw [List.drop_eq_getElem_cons hk, List.cons_append]
    cases f with
    | zero => omega
    | succ f2 =>
      rw [hstate, findLoop]
      by_cases hhead : v[k + 1] = x
      · refine ⟨k + 1, hk, ?_, ?_⟩
        · rw [if_pos hhead, ← List.cons_append, ← List.drop_eq_getElem_cons hk]
        · rw [List.getElem?_eq_getElem hk, hhead]
      · rw [if_neg hhead]
        have hrot : rotR (v[k + 1] :: (v.drop (k + 2) ++ v.take (k + 1))) =
            v.drop k ++ v.take k := by
          rw [← List.cons_append, ← List.drop_eq_getElem_cons hk]
          rw [List.take_succ, List.getElem?_eq_getElem hklt]
          simp only [Option.toList_some]
          rw [← List.append_assoc, rotR_concat, ← List.cons_append,
            ← List.drop_eq_getElem_cons hklt]
        rw [hrot]
        have hx2 : x ∈ v.take (k + 1) := by
          rw [List.take_succ, List.getElem?_eq_getElem hk] at hx
          simp only [Option.toList_some, List.mem_append, List.mem_singleton] at hx
          rcases hx with h | h
          · exact h
          · exact absurd h.symm hhead
        exact ih f2 hklt hx2 (by omega)

theorem findLoop_finds {T : Type} [DecidableEq T] {x : T} {v : List T} (hx : x ∈ v) :
    ∃ j, j < v.length ∧ findLoop x v (v.length + 1) = some (v.drop j ++ v.take j) ∧
      v[j]? = some x := by
  have hne : v ≠ [] := by
    rintro rfl
    simp at hx
  have hlen : 0 < v.length := List.length_pos.mpr hne
  cases hv : v with
  | nil => exact absurd hv hne
  | cons y w =>
    subst hv
    rw [findLoop]
    by_cases hy : y = x
    · refine ⟨0, hlen, ?_, ?_⟩
      · rw [if_pos hy, List.drop_zero, List.take_zero, List.append_nil]
      · rw [List.getElem?_cons_zero, hy]
    · rw [if_neg hy]
      have hstate : rotR (y :: w) =
          (y :: w).drop ((y :: w).length - 1) ++ (y :: w).take ((y :: w).length - 1) := rfl
      rw [hstate]
      have hk : (y :: w).length - 1 < (y :: w).length := by simp
      have hx2 : x ∈ (y :: w).take ((y :: w).length - 1 + 1) := by
        have : (y :: w).length - 1 + 1 = (y :: w).length := by simp
        rw [this, List.take_length]
        exact hx
      exact findLoop_reaches x (y :: w) ((y :: w).length - 1) (y :: w).length hk hx2 (by omega)

theorem nodup_getElem?_inj {T : Type} {v : List T} (hnd : v.Nodup) {i j : Nat} {x : T}
    (hi : v[i]? = some x) (hj : v[j]? = some x) : i = j := by
  obtain ⟨hi1, hi2⟩ := List.getElem?_eq_some.mp hi
  obtain ⟨hj1, hj2⟩ := List.getElem?_eq_some.mp hj
  have hinj := List.nodup_iff_injective_getElem.mp hnd
  have heq : (⟨i, hi1⟩ : Fin v.length) = ⟨j, hj1⟩ := hinj (hi2.trans hj2.symm)
  exact congrArg Fin.val heq

theorem find_and_rotate_left {T : Type} [DecidableEq T] {x : T} {v : List T} (hnd : v.Nodup)
    {j : Nat} (hj : j < v.length) (hx : v[j]? = some x) :
    find_and_rotate x v .left = v[(j + 1) % v.length]? := by
  have hlen : 0 < v.length := by omega
  obtain ⟨j2, hj2, hfl, hx2⟩ := findLoop_finds (List.getElem?_mem hx)
  have hjj : j2 = j := nodup_getElem?_inj hnd hx2 hx
  subst hjj
  unfold find_and_rotate
  rw [hfl]
  rw [← List.rotate_eq_drop_append_take (Nat.le_of_lt hj2)]
  rw [Option.some_bind]
  rw [rotL_eq_rotate, List.rotate_rotate, head?_rotate hlen]

theorem find_and_rotate_right {T : Type} [DecidableEq T] {x : T} {v : List T} (hnd : v.Nodup)
    {j : Nat} (hj : j < v.length) (hx : v[j]? = some x) :
    find_and_rotate x v .right = v[(j + (v.length - 1)) % v.length]? := by
  have hlen : 0 < v.length := by omega
  obtain ⟨j2, hj2, hfl, hx2⟩ := findLoop_finds (List.getElem?_mem hx)
  have hjj : j2 = j := nodup_getElem?_inj hnd hx2 hx
  subst hjj
  unfold find_and_rotate
  rw [hfl]
  rw [← List.rotate_eq_drop_append_take (Nat.le_of_lt hj2)]
  rw [Option.some_bind]
  rw [rotR_eq_rotate, List.length_rotate, List.rotate_rotate, head?_rotate hlen]

theorem find_and_rotate_inverse {T : Type} [DecidableEq T] {x : T} {v : List T} (hnd : v.Nodup)
    (hx : x ∈ v) (dir : Dir) :
    ∃ y, find_and_rotate x v dir = some y ∧ y ∈ v ∧
      find_and_rotate y v (flipDir dir) = some x := by
  obtain ⟨j, hxj⟩ := List.mem_iff_getElem?.mp hx
  have hj : j < v.length := (List.getElem?_eq_some.mp hxj).1
  have hlen : 0 < v.length := by omega
  cases dir with
  | left =>
    have hjy : (j + 1) % v.length < v.length := Nat.mod_lt _ hlen
    refine ⟨v[(j + 1) % v.length], ?_, List.getElem_mem _, ?_⟩
    · rw [find_and_rotate_left hnd hj hxj, List.getElem?_eq_getElem hjy]
    · rw [show flipDir .left = .right from rfl]
      rw [find_and_rotate_right hnd hjy (List.getElem?_eq_getElem hjy)]
      have hidx : ((j + 1) % v.length + (v.length - 1)) % v.length = j := by
        rw [Nat.mod_add_mod]
        have h2 : j + 1 + (v.length - 1) = j + v.length := by omega
        rw [h2, Nat.add_mod_right]
        exact Nat.mod_eq_of_lt hj
      rw [hidx, hxj]
  | right =>
    have hjy : (j + (v.length - 1)) % v.length < v.length := Nat.mod_lt _ hlen
    refine ⟨v[(j + (v.length - 1)) % v.length], ?_, List.getElem_mem _, ?_⟩
    · rw [find_and_rotate_right hnd hj hxj, List.getElem?_eq_getElem hjy]
    · rw [show flipDir .right = .left from rfl]
      rw [find_and_rotate_left hnd hjy (List.getElem?_eq_getElem hjy)]
      have hidx : ((j + (v.length - 1)) % v.length + 1) % v.length = j := by
        rw [Nat.mod_add_mod]
        have h2 : j + (v.length - 1) + 1 = j + v.length := by omega
        rw [h2, Nat.add_mod_right]
        exact Nat.mod_eq_of_lt hj
      rw [hidx, hxj]

theorem find_and_rotate_mem {T : Type} [DecidableEq T] {x y : T} {v : List T} {dir : Dir}
    (h : find_and_rotate x v dir = some y) : y ∈ v := by
  unfold find_and_rotate at h
  cases hfl : findLoop x v (v.length + 1) with
  | none =>
    rw [hfl] at h
    simp at h
  | some w =>
    rw [hfl, Option.some_bind] at h
    have hw := findLoop_mem x (v.length + 1) v w hfl
    cases dir with
    | left =>
      have := head?_mem h
      rw [mem_rotL] at this
      exact (hw y).mp this
    | right =>
      have := head?_mem h
      rw [mem_rotR] at this
      exact (hw y).mp this

/-! Set-removal and duplicate-freedom helpers. -/

theorem mem_foldl_setRemove {T : Type} [DecidableEq T] :
    ∀ (os l : List T) (x : T), x ∈ os.foldl setRemove l ↔ x ∈ l ∧ x ∉ os := by
  intro os
  induction os with
  | nil =>
    intro l x
    simp
  | cons o os ih =>
    intro l x
    rw [List.foldl_cons, ih]
    simp only [setRemove, List.mem_filter, decide_eq_true_eq, List.mem_cons]
    tauto

theorem nodup_foldl_setRemove {T : Type} [DecidableEq T] :
    ∀ (os l : List T), l.Nodup → (os.foldl setRemove l).Nodup := by
  intro os
  induction os with
  | nil => intro l h; simpa
  | cons o os ih =>
    intro l h
    rw [List.foldl_cons]
    exact ih _ (List.Nodup.filter _ h)

theorem nodup_set_of_not_mem_eraseIdx {T : Type} :
    ∀ (l : List T) (n : Nat) (a : T), l.Nodup → n < l.length → a ∉ l.eraseIdx n →
      (l.set n a).Nodup := by
  intro l
  induction l with
  | nil =>
    intro n a _ h _
    simp at h
  | cons x xs ih =>
    intro n a hnd hn ha
    cases n with
    | zero =>
      rw [List.set_cons_zero, List.nodup_cons]
      rw [List.eraseIdx_cons_zero] at ha
      exact ⟨ha, (List.nodup_cons.mp hnd).2⟩
    | succ m =>
      rw [List.set_cons_succ, List.nodup_cons]
      rw [List.eraseIdx_cons_succ, List.mem_cons] at ha
      push_neg at ha
      rw [List.nodup_cons] at hnd
      refine ⟨?_, ih m a hnd.2 (by simpa using hn) ha.2⟩
      intro hx
      rcases List.mem_or_eq_of_mem_set hx with h | h
      · exact hnd.1 h
      · exact ha.1 h.symm

theorem eraseIdx_set {T : Type} :
    ∀ (l : List T) (n : Nat) (a : T), (l.set n a).eraseIdx n = l.eraseIdx n := by
  intro l
  induction l with
  | nil => intro n a; rfl
  | cons x xs ih =>
    intro n a
    cases n with
    | zero => rfl
    | succ m =>
      rw [List.set_cons_succ, List.eraseIdx_cons_succ, List.eraseIdx_cons_succ, ih]

theorem set_getElem?_self {T : Type} :
    ∀ (l : List T) (n : Nat) (a : T), l[n]? = some a → l.set n a = l := by
  intro l
  induction l with
  | nil =>
    intro n a h
    simp at h
  | cons x xs ih =>
    intro n a h
    cases n with
    | zero =>
      rw [List.getElem?_cons_zero, Option.some.injEq] at h
      rw [List.set_cons_zero, h]
    | succ m =>
      rw [List.getElem?_cons_succ] at h
      rw [List.set_cons_succ, ih m a h]

/-! Shape congruence and selection stability. -/

theorem draw_lines_congr {d d2 : Draw} (hp : d2.power.isSome = d.power.isSome)
    (hc : d2.category.isSome = d.category.isSome) (ht : d2.tags.length = d.tags.length) :
    draw_lines d2 = draw_lines d := by
  unfold draw_lines
  rw [hp, hc, ht]

theorem elementList_congr {d d2 : Draw} (hp : d2.power.isSome = d.power.isSome)
    (hc : d2.category.isSome = d.category.isSome) (ht : d2.tags.length = d.tags.length) :
    elementList d2 = elementList d := by
  unfold elementList
  rw [hp, hc, ht]

theorem get_selection_set :
    ∀ (draws : List Draw) (i : Nat) (d d2 : Draw) (l : Nat),
      draws[i]? = some d → draw_lines d2 = draw_lines d →
      get_selection (draws.set i d2) l = get_selection draws l := by
  intro draws
  induction draws with
  | nil =>
    intro i d d2 l h _
    simp at h
  | cons a as ih =>
    intro i d d2 l h hdl
    cases i with
    | zero =>
      rw [List.getElem?_cons_zero, Option.some.injEq] at h
      subst h
      rw [List.set_cons_zero]
      unfold get_selection
      rw [hdl]
    | succ m =>
      rw [List.getElem?_cons_succ] at h
      rw [List.set_cons_succ]
      unfold get_selection
      rw [ih m d d2 (l - draw_lines a) h hdl]

/-! Draw-level rotation step. -/

theorem power_mem_powersList (p : Power) : p ∈ powersList := by
  cases p <;> simp [powersList]

theorem draw_eta_power {d : Draw} {p : Power} (hp : d.power = some p) :
    { d with power := some p } = d := by
  cases d
  simp only at hp
  rw [← hp]

theorem draw_eta_category {d : Draw} {c : String} (hc : d.category = some c) :
    { d with category := some c } = d := by
  cases d
  simp only at hc
  rw [← hc]

theorem rotateDraw_power_eq (lib : Library) (d : Draw) (p : Power) (dir : Dir)
    (hp : d.power = some p) :
    rotateDraw lib d .power dir =
      (find_and_rotate p powersList dir).map fun p2 => { d with power := some p2 } := by
  unfold rotateDraw
  rw [hp]

theorem rotateDraw_category_eq (lib : Library) (d : Draw) (c : String) (dir : Dir)
    (hc : d.category = some c) :
    rotateDraw lib d .category dir =
      (find_and_rotate c lib.categories dir).map fun c2 => { d with category := some c2 } := by
  unfold rotateDraw
  rw [hc]

theorem rotateDraw_tag_eq (lib : Library) (d : Draw) (t : String) (n : Nat) (dir : Dir)
    (ht : d.tags[n]? = some t) :
    rotateDraw lib d (.tag n) dir =
      (find_and_rotate t (tagCandidates lib d n) dir).map
        fun t2 => { d with tags := d.tags.set n t2 } := by
  unfold rotateDraw
  show (match d.tags[n]? with
    | none => none
    | some t =>
      (find_and_rotate t (tagCandidates lib d n) dir).map
        fun t2 => { d with tags := d.tags.set n t2 }) = _
  rw [ht]

theorem rotateDraw_inverse {lib : Library} {d : Draw} {k : ElementKind} (dir : Dir)
    (hcat : lib.categories.Nodup) (htag : lib.tags.Nodup) (hval : RotValOk lib d k) :
    ∃ d2, rotateDraw lib d k dir = some d2 ∧ RotValOk lib d2 k ∧
      rotateDraw lib d2 k (flipDir dir) = some d ∧
      d2.power.isSome = d.power.isSome ∧ d2.category.isSome = d.category.isSome ∧
      d2.tags.length = d.tags.length := by
  cases k with
  | mark => exact hval.elim
  | power =>
    obtain ⟨p, hp⟩ := Option.isSome_iff_exists.mp hval
    have hnd : powersList.Nodup := by decide
    obtain ⟨y, hy, _, hyback⟩ := find_and_rotate_inverse hnd (power_mem_powersList p) dir
    refine ⟨{ d with power := some y }, ?_, rfl, ?_, by simp [hp], rfl, rfl⟩
    · rw [rotateDraw_power_eq lib d p dir hp, hy, Option.map_some']
    · rw [rotateDraw_power_eq lib { d with power := some y } y (flipDir dir) rfl,
        hyback, Option.map_some']
      have hfinal : ({ { d with power := some y } with power := some p } : Draw) = d := by
        cases d
        simp only at hp
        simp only [hp]
      exact congrArg some hfinal
  | category =>
    obtain ⟨c, hc, hcmem⟩ := hval
    obtain ⟨y, hy, hymem, hyback⟩ := find_and_rotate_inverse hcat hcmem dir
    refine ⟨{ d with category := some y }, ?_, ⟨y, rfl, hymem⟩, ?_, rfl, by simp [hc], rfl⟩
    · rw [rotateDraw_category_eq lib d c dir hc, hy, Option.map_some']
    · rw [rotateDraw_category_eq lib { d with category := some y } y (flipDir dir) rfl,
        hyback, Option.map_some']
      have hfinal : ({ { d with category := some y } with category := some c } : Draw) = d := by
        cases d
        simp only at hc
        simp only [hc]
      exact congrArg some hfinal
  | tag n =>
    obtain ⟨t, ht, htmem⟩ := hval
    have hn : n < d.tags.length := (List.getElem?_eq_some.mp ht).1
    have hnd : (tagCandidates lib d n).Nodup := nodup_foldl_setRemove _ _ htag
    obtain ⟨y, hy, hymem, hyback⟩ := find_and_rotate_inverse hnd htmem dir
    have hcands : tagCandidates lib { d with tags := d.tags.set n y } n =
        tagCandidates lib d n := by
      unfold tagCandidates
      rw [show ({ d with tags := d.tags.set n y } : Draw).tags = d.tags.set n y from rfl]
      rw [eraseIdx_set]
    have hgety : ({ d with tags := d.tags.set n y } : Draw).tags[n]? = some y :=
      List.getElem?_set_self hn
    refine ⟨{ d with tags := d.tags.set n y }, ?_, ⟨y, hgety, ?_⟩, ?_, rfl, rfl, ?_⟩
    · rw [rotateDraw_tag_eq lib d t n dir ht, hy, Option.map_some']
    · rw [hcands]
      exact hymem
    · rw [rotateDraw_tag_eq lib { d with tags := d.tags.set n y } y n (flipDir dir) hgety,
        hcands, hyback, Option.map_some']
      have hts : (d.tags.set n y).set n t = d.tags := by
        rw [List.set_set]
        exact set_getElem?_self d.tags n t ht
      have hfinal : ({ { d with tags := d.tags.set n y } with
          tags := (d.tags.set n y).set n t } : Draw) = d := by
        cases d
        simp only at hts
        simp only [hts]
      exact congrArg some hfinal
    · rw [show ({ d with tags := d.tags.set n y } : Draw).tags = d.tags.set n y from rfl]
      rw [List.length_set]

/-! Editor-level rotation step. -/

theorem rotate_current_element_eq (lib : Library) (ed : DraftEditor) (dir : Dir)
    {i off : Nat} {d : Draw} {k : ElementKind}
    (hsel : get_selection ed.draws ed.line = some (i, off))
    (hget : ed.draws[i]? = some d) (helem : (elementList d)[off]? = some k) :
    rotate_current_element lib ed dir =
      (rotateDraw lib d k dir).map fun d2 => { ed with draws := ed.draws.set i d2 } := by
  unfold rotate_current_element
  rw [hsel, Option.some_bind, hget, Option.some_bind, helem, Option.some_bind]

theorem rotate_ce_step (lib : Library) (ed : DraftEditor) (dir : Dir)
    (hcat : lib.categories.Nodup) (htag : lib.tags.Nodup) (hinv : RotInv lib ed) :
    ∃ ed2, rotate_current_element lib ed dir = some ed2 ∧ RotInv lib ed2 ∧
      rotate_current_element lib ed2 (flipDir dir) = some ed := by
  obtain ⟨i, off, d, k, hsel, hget, helem, hval⟩ := hinv
  obtain ⟨d2, hrot, hval2, hback, hsp, hsc, hst⟩ := rotateDraw_inverse dir hcat htag hval
  have hi : i < ed.draws.length := (List.getElem?_eq_some.mp hget).1
  have hdl : draw_lines d2 = draw_lines d := draw_lines_congr hsp hsc hst
  have hel : elementList d2 = elementList d := elementList_congr hsp hsc hst
  have hsel2 : get_selection (ed.draws.set i d2) ed.line = some (i, off) := by
    rw [get_selection_set ed.draws i d d2 ed.line hget hdl, hsel]
  have hget2 : (ed.draws.set i d2)[i]? = some d2 := List.getElem?_set_self hi
  refine ⟨{ ed with draws := ed.draws.set i d2 }, ?_, ?_, ?_⟩
  · rw [rotate_current_element_eq lib ed dir hsel hget helem, hrot, Option.map_some']
  · exact ⟨i, off, d2, k, hsel2, hget2, by rw [hel]; exact helem, hval2⟩
  · rw [rotate_current_element_eq lib { ed with draws := ed.draws.set i d2 } (flipDir dir)
      hsel2 hget2 (by rw [hel]; exact helem), hback, Option.map_some']
    have hset : (ed.draws.set i d2).set i d = ed.draws := by
      rw [List.set_set]
      exact set_getElem?_self ed.draws i d hget
    have hfinal : ({ { ed with draws := ed.draws.set i d2 } with
        draws := (ed.draws.set i d2).set i d } : DraftEditor) = ed := by
      cases ed
      simp only at hset
      simp only [hset]
    exact congrArg some hfinal

theorem rotateN_zero (lib : Library) (dir : Dir) (ed : DraftEditor) :
    rotateN lib dir 0 ed = some ed := rfl

theorem rotateN_succ (lib : Library) (dir : Dir) (k : Nat) (ed : DraftEditor) :
    rotateN lib dir (k + 1) ed =
      (rotate_current_element lib ed dir).bind (rotateN lib dir k) := rfl

theorem rotateN_succ_last (lib : Library) (dir : Dir) :
    ∀ (k : Nat) (ed : DraftEditor),
      rotateN lib dir (k + 1) ed =
        (rotateN lib dir k ed).bind fun e => rotate_current_element lib e dir := by
  intro k
  induction k with
  | zero =>
    intro ed
    rw [rotateN_succ, rotateN_zero, Option.some_bind]
    cases h : rotate_current_element lib ed dir with
    | none => rw [Option.none_bind]
    | some e =>
      rw [Option.some_bind]
      exact rotateN_zero lib dir e
  | succ k ih =>
    intro ed
    rw [rotateN_succ lib dir (k + 1) ed, rotateN_succ lib dir k ed]
    cases h : rotate_current_element lib ed dir with
    | none => rw [Option.none_bind, Option.none_bind, Option.none_bind]
    | some e =>
      rw [Option.some_bind, Option.some_bind]
      exact ih e

theorem rotateN_inverse (lib : Library) (dir : Dir)
    (hcat : lib.categories.Nodup) (htag : lib.tags.Nodup) :
    ∀ (k : Nat) (ed : DraftEditor), RotInv lib ed →
      ∃ e2, rotateN lib dir k ed = some e2 ∧ RotInv lib e2 ∧
        rotateN lib (flipDir dir) k e2 = some ed := by
  intro k
  induction k with
  | zero =>
    intro ed h
    exact ⟨ed, rfl, h, rfl⟩
  | succ k ih =>
    intro ed h
    obtain ⟨e1, h1, hinv1, hback1⟩ := rotate_ce_step lib ed dir hcat htag h
    obtain ⟨e2, h2, hinv2, hback2⟩ := ih e1 hinv1
    refine ⟨e2, ?_, hinv2, ?_⟩
    · rw [rotateN_succ, h1, Option.some_bind, h2]
    · rw [rotateN_succ_last lib (flipDir dir) k e2, hback2, Option.some_bind, hback1]

/-- C6: when the editor addresses a rotatable element (quality, category or
tag) whose current value belongs to its candidate set, rotating it k times
in one direction and then k times in the other restores the editor exactly,
in particular the element's original value, for every k up to the candidate
set's size. -/
theorem rotate_forward_backward (lib : Library) (ed : DraftEditor)
    (hcat : lib.categories.Nodup) (htag : lib.tags.Nodup) (hinv : RotInv lib ed)
    (k : Nat) (_hk : k ≤ candCount lib ed) :
    (rotateN lib .left k ed).bind (rotateN lib .right k) = some ed ∧
    (rotateN lib .right k ed).bind (rotateN lib .left k) = some ed := by
  constructor
  · obtain ⟨e2, h1, _, h2⟩ := rotateN_inverse lib .left hcat htag k ed hinv
    rw [h1, Option.some_bind]
    exact h2
  · obtain ⟨e2, h1, _, h2⟩ := rotateN_inverse lib .right hcat htag k ed hinv
    rw [h1, Option.some_bind]
    exact h2

/-- C6 witness: rotating the quality element of the concrete one-draw draft
twice left then twice right (and twice right then twice left) restores it. -/
theorem rotate_forward_backward_witness :
    (rotateN lib1 .left 2 edPow).bind (rotateN lib1 .right 2) = some edPow ∧
    (rotateN lib1 .right 2 edPow).bind (rotateN lib1 .left 2) = some edPow :=
  rotate_forward_backward lib1 edPow (by decide) (by decide)
    ⟨0, 1, drawA, .power, by decide, by decide, by decide, rfl⟩ 2 (by decide)

/-! Tag distinctness. -/

theorem addTagDraw_none {lib : Library} {d : Draw}
    (hh : (d.tags.foldl setRemove lib.tags).head? = none) : addTagDraw lib d = d := by
  unfold addTagDraw
  show (match (d.tags.foldl setRemove lib.tags).head? with
    | none => d
    | some t => { d with tags := d.tags ++ [t] }) = d
  rw [hh]

theorem addTagDraw_some {lib : Library} {d : Draw} {t : String}
    (hh : (d.tags.foldl setRemove lib.tags).head? = some t) :
    addTagDraw lib d = { d with tags := d.tags ++ [t] } := by
  unfold addTagDraw
  show (match (d.tags.foldl setRemove lib.tags).head? with
    | none => d
    | some t => { d with tags := d.tags ++ [t] }) = _
  rw [hh]

theorem rotateDraw_tag_none (lib : Library) (d : Draw) (n : Nat) (dir : Dir)
    (hget : d.tags[n]? = none) : rotateDraw lib d (.tag n) dir = none := by
  unfold rotateDraw
  show (match d.tags[n]? with
    | none => none
    | some t =>
      (find_and_rotate t (tagCandidates lib d n) dir).map
        fun t2 => { d with tags := d.tags.set n t2 }) = none
  rw [hget]

theorem applyTagOp_nodup (lib : Library) {d d1 : Draw} {op : TagOp}
    (h : d.tags.Nodup) (happ : applyTagOp lib d op = some d1) : d1.tags.Nodup := by
  cases op with
  | add =>
    rw [show applyTagOp lib d .add = some (addTagDraw lib d) from rfl,
      Option.some.injEq] at happ
    rw [← happ]
    cases hh : (d.tags.foldl setRemove lib.tags).head? with
    | none =>
      rw [addTagDraw_none hh]
      exact h
    | some t =>
      rw [addTagDraw_some hh]
      have htmem := (mem_foldl_setRemove d.tags lib.tags t).mp (head?_mem hh)
      show (d.tags ++ [t]).Nodup
      rw [List.nodup_append]
      refine ⟨h, List.nodup_singleton t, ?_⟩
      intro a ha hat
      rw [List.mem_singleton] at hat
      rw [hat] at ha
      exact htmem.2 ha
  | rot n dir =>
    rw [show applyTagOp lib d (.rot n dir) = rotateDraw lib d (.tag n) dir from rfl] at happ
    cases hget : d.tags[n]? with
    | none =>
      rw [rotateDraw_tag_none lib d n dir hget] at happ
      exact absurd happ (by simp)
    | some t =>
      rw [rotateDraw_tag_eq lib d t n dir hget] at happ
      cases hfar : find_and_rotate t (tagCandidates lib d n) dir with
      | none =>
        rw [hfar] at happ
        exact absurd happ (by simp)
      | some y =>
        rw [hfar, Option.map_some', Option.some.injEq] at happ
        rw [← happ]
        have hymem := find_and_rotate_mem hfar
        unfold tagCandidates at hymem
        have hy2 := (mem_foldl_setRemove (d.tags.eraseIdx n) lib.tags y).mp hymem
        have hn : n < d.tags.length := (List.getElem?_eq_some.mp hget).1
        exact nodup_set_of_not_mem_eraseIdx d.tags n y h hn hy2.2

/-- C5: starting from a draw whose tag list is duplicate-free, any sequence
of tag rotations and tag additions that completes yields a draw whose tag
list is still duplicate-free: rotation only picks tags outside the draw's
other tags, and addition only picks a library tag the draw does not already
use (or does nothing). -/
theorem tag_ops_preserve_nodup (lib : Library) :
    ∀ (ops : List TagOp) (d d2 : Draw), d.tags.Nodup →
      applyTagOps lib ops d = some d2 → d2.tags.Nodup := by
  intro ops
  induction ops with
  | nil =>
    intro d d2 h happ
    rw [show applyTagOps lib [] d = some d from rfl, Option.some.injEq] at happ
    rw [← happ]
    exact h
  | cons op ops ih =>
    intro d d2 h happ
    rw [show applyTagOps lib (op :: ops) d =
      (applyTagOp lib d op).bind (applyTagOps lib ops) from rfl] at happ
    cases hop : applyTagOp lib d op with
    | none =>
      rw [hop, Option.none_bind] at happ
      exact absurd happ (by simp)
    | some d1 =>
      rw [hop, Option.some_bind] at happ
      exact ih d1 d2 (applyTagOp_nodup lib h hop) happ

/-- C5 witness: adding a tag and rotating the first tag of the concrete
one-tag draw completes and keeps the tag list duplicate-free. -/
theorem tag_ops_preserve_nodup_witness :
    ({ power := some .Moderate, category := none, tags := ["t3", "t2"] } : Draw).tags.Nodup :=
  tag_ops_preserve_nodup lib1 [TagOp.add, TagOp.rot 0 .left] drawA
    { power := some .Moderate, category := none, tags := ["t3", "t2"] }
    (by decide) (by decide)

end Upheaval
